import Mathlib

/-!
Verification of the Octopus scaffolding CLI.

We give a shallow embedding of the parts of the `octopus` package that the
specification talks about:

* a flat filesystem model (`FS`): a list of absolute paths (lists of path
  segments, root-relative) together with the kind of entry stored there.
  `pathlib.Path` operations map onto list operations: `p.name` is
  `p.getLastD ""`, `p.parent` is `p.dropLast`, `p / "x"` is `p ++ ["x"]`,
  `p.exists()` is `FS.pexists`, `p.is_dir()` is `FS.isDir`,
  `p.iterdir()` is `FS.iterdir`, `shutil.rmtree` is `FS.rmtree`,
  `mkdir(parents=True, exist_ok=True)` is `FS.mkdirp`;
* the functions of `octopus/utils.py`, `octopus/generators/feature.py`,
  `octopus/generators/shared.py`, `octopus/commands/add.py`,
  `octopus/commands/remove.py`, `octopus/commands/structure.py`;
* the generated `auto_discover_routers` routine of
  `octopus/templates/templates.py` (the runtime router-discovery engine),
  modelled as a recursion over an abstract tree of feature modules.
-/

/-- Kind of filesystem entry: a directory, or a file with its text content. -/
inductive Entry where
  | dirE : Entry
  | fileE : String → Entry
deriving DecidableEq, Repr

/-- A filesystem: a finite list of (absolute path, entry) pairs.  A path is
the list of its segments from the filesystem root. -/
structure FS where
  entries : List (List String × Entry)
deriving DecidableEq, Repr

/-- Look up the entry stored at path `p` (first match wins). -/
def FS.statOf (fs : FS) (p : List String) : Option Entry :=
  (fs.entries.find? (fun e => decide (e.1 = p))).map (fun e => e.2)

/-- `Path.exists()`. -/
def FS.pexists (fs : FS) (p : List String) : Bool :=
  (fs.statOf p).isSome

/-- `Path.is_dir()`. -/
def FS.isDir (fs : FS) (p : List String) : Bool :=
  decide (fs.statOf p = some Entry.dirE)

/-- `Path.iterdir()`: the immediate children of `p`, as (name, entry) pairs,
in filesystem order. -/
def FS.iterdir (fs : FS) (p : List String) : List (String × Entry) :=
  fs.entries.filterMap (fun e =>
    if e.1.dropLast = p ∧ e.1 ≠ [] then some (e.1.getLastD "", e.2) else none)

/-- `shutil.rmtree(p)`: remove `p` and everything below it. -/
def FS.rmtree (fs : FS) (p : List String) : FS :=
  ⟨fs.entries.filter (fun e => decide (¬ p <+: e.1))⟩

/-- The nonempty prefixes of a path, shortest first. -/
def pathPrefixes (p : List String) : List (List String) :=
  (List.range p.length).map (fun i => p.take (i + 1))

/-- `p.mkdir(parents=True, exist_ok=True)`: create `p` and any missing
ancestor directories. -/
def FS.mkdirp (fs : FS) (p : List String) : FS :=
  ⟨fs.entries ++ (pathPrefixes p).filterMap (fun q =>
    if fs.pexists q then none else some (q, Entry.dirE))⟩

/-- `p.write_text(c)` on an existing path: replace the stored entry by a file
with content `c`. -/
def FS.writeFile (fs : FS) (p : List String) (c : String) : FS :=
  ⟨fs.entries.map (fun e => if e.1 = p then (e.1, Entry.fileE c) else e)⟩

/-- Python's `sep.join(parts)`. -/
def joinSep (sep : String) : List String → String
  | [] => ""
  | [s] => s
  | s :: rest => s ++ sep ++ joinSep sep rest

/-- Python's `s.split(sep)` for a one-character separator `sep`. -/
def pySplit (s : String) (sep : Char) : List String :=
  (s.data.splitOn sep).map String.mk

/-- Python dict assignment `d[k] = v` on an insertion-ordered dict. -/
def dictInsert {α : Type} (d : List (String × α)) (k : String) (v : α) :
    List (String × α) :=
  match d with
  | [] => [(k, v)]
  | e :: rest => if e.1 = k then (k, v) :: rest else e :: dictInsert rest k v

/-!  ## `octopus/utils.py`  -/

/-- The upward walk of `find_project_root` (`utils.py` lines 17-21),
fuel-indexed so that the recursion is structural: each step moves to the
parent directory, which strictly shortens the path, so running with fuel
`p.length` is exact.  At the filesystem root (`[]`) the Python loop
condition `project_root.parent != project_root` fails and the walk stops. -/
def findRootLoopGo (fs : FS) : Nat → List String → List String
  | _, [] => []
  | 0, _ :: _ => []
  | Nat.succ fuel, p =>
    if fs.pexists (p ++ ["pyproject.toml"]) then p
    else findRootLoopGo fs fuel p.dropLast

/-- The upward walk of `find_project_root`: go to the parent while no
`pyproject.toml` is found and the filesystem root has not been reached. -/
def findRootLoop (fs : FS) (p : List String) : List String :=
  findRootLoopGo fs p.length p

/-- `find_project_root` (`utils.py` lines 9-32). -/
def find_project_root (fs : FS) (start_dir : List String) :
    Option (List String) × Option (List String) :=
  let project_root := findRootLoop fs start_dir
  if ¬ fs.pexists (project_root ++ ["pyproject.toml"]) then (none, none)
  else
    let app_root := project_root ++ ["app"]
    if ¬ fs.pexists app_root then (some project_root, none)
    else (some project_root, some app_root)

/-- `create_file` (`utils.py` lines 52-58): make the parent directories, then
write the file only if the path does not already exist. -/
def create_file (fs : FS) (p : List String) (content : String) : FS :=
  let fs1 := fs.mkdirp p.dropLast
  if fs1.pexists p then fs1
  else ⟨fs1.entries ++ [(p, Entry.fileE content)]⟩

/-- The project/app-root guard at the top of `add_feature`
(`commands/add.py` lines 50-61): exit code 1 when not in a project or when
the project has no `app/` directory. -/
def add_feature_guard (fs : FS) (cwd : List String) :
    Except Nat (List String × List String) :=
  match find_project_root fs cwd with
  | (none, _) => Except.error 1
  | (some _, none) => Except.error 1
  | (some pr, some ar) => Except.ok (pr, ar)

/-!  ## `octopus/commands/structure.py`  -/

/-- `_is_octopus_unit` (`commands/structure.py` lines 17-31). -/
def is_octopus_unit (fs : FS) (p : List String) : Bool × String :=
  if ¬ fs.isDir p then (false, "")
  else
    let has_router := fs.pexists (p ++ ["router.py"])
    let has_service := fs.pexists (p ++ ["service.py"])
    let has_init := fs.pexists (p ++ ["__init__.py"])
    if has_router && has_service then (true, "feature")
    else if has_service && has_init && !has_router then (true, "shared")
    else (false, "")

/-!  ## `octopus/generators/feature.py`  -/

/-- The `app_root` walk of `_collect_available_shared_modules`
(`generators/feature.py` lines 81-85), fuel-indexed so that the recursion is
structural (each step goes to the parent, so fuel `p.length` is exact): go
up from a path until a directory named `app` is reached. -/
def walkUpToAppGo : Nat → List String → List String
  | _, [] => []
  | 0, _ :: _ => []
  | Nat.succ fuel, p =>
    if p.getLastD "" = "app" then p
    else walkUpToAppGo fuel p.dropLast

/-- The `app_root` walk of `_collect_available_shared_modules`
(`generators/feature.py` lines 81-85). -/
def walkUpToApp (p : List String) : List String :=
  walkUpToAppGo p.length p

/-- The `levels_to_check` loop of `_collect_available_shared_modules`
(`generators/feature.py` lines 71-78), fuel-indexed so that the recursion is
structural (each step drops the last two segments, so fuel `p.length` is
exact): starting from the unit level, record each enclosing unit level
(front-inserted, so outermost first) while the parent is a `features`
container, stopping at the `app` root. -/
def levelsLoopGo : Nat → List String → List (List String)
  | Nat.succ (Nat.succ fuel), p =>
    if p.getLastD "" = "app" then []
    else if p.dropLast.getLastD "" = "features" then
      levelsLoopGo fuel p.dropLast.dropLast ++ [p]
    else [p]
  | _, p =>
    if p.getLastD "" = "app" then [] else [p]

/-- The `levels_to_check` loop of `_collect_available_shared_modules`
(`generators/feature.py` lines 71-78). -/
def levelsLoop (p : List String) : List (List String) :=
  levelsLoopGo p.length p

/-- The `abs_path_parts` loop of `_collect_available_shared_modules`
(`generators/feature.py` lines 99-104), fuel-indexed so that the recursion
is structural (each step goes to the parent, so fuel `p.length` is exact):
the segment names strictly below the nearest enclosing directory named
`app`. -/
def partsAfterAppGo : Nat → List String → List String
  | _, [] => []
  | 0, _ :: _ => []
  | Nat.succ fuel, p =>
    if p.getLastD "" = "app" then []
    else partsAfterAppGo fuel p.dropLast ++ [p.getLastD ""]

/-- The `abs_path_parts` loop of `_collect_available_shared_modules`
(`generators/feature.py` lines 99-104). -/
def partsAfterApp (p : List String) : List String :=
  partsAfterAppGo p.length p

/-- Processing of one entry of `levels_to_check` by
`_collect_available_shared_modules` (`generators/feature.py` lines 93-116):
if the level has a `shared` directory, record every immediate child of it
that is a directory containing an `__init__.py`, keyed by its full import
path. -/
def collectLevel (fs : FS) (acc : List (String × String × String))
    (level_dir : List String) : List (String × String × String) :=
  let shared_dir := level_dir ++ ["shared"]
  if fs.pexists shared_dir ∧ fs.isDir shared_dir then
    let base_import_path :=
      joinSep "." (("app" :: partsAfterApp shared_dir).dropLast)
    (fs.iterdir shared_dir).foldl (fun acc2 item =>
      if item.2 = Entry.dirE ∧
          fs.pexists (shared_dir ++ [item.1, "__init__.py"]) then
        dictInsert acc2 (base_import_path ++ ".shared." ++ item.1)
          (item.1, base_import_path)
      else acc2) acc
  else acc

/-- `_collect_available_shared_modules` (`generators/feature.py` lines
33-118): the dict mapping the full import path of each visible shared module
to its bare name and base import path. -/
def collect_available_shared_modules (fs : FS) (features_dir : List String) :
    List (String × String × String) :=
  let app_root := walkUpToApp features_dir
  let levels_to_check := app_root :: levelsLoop features_dir.dropLast
  levels_to_check.foldl (collectLevel fs) []

/-- `create_feature_unit`, directory-creation part (`generators/feature.py`
lines 130-131): `feature_path = base_path / feature_name` followed by
`feature_path.mkdir(parents=True, exist_ok=True)`.  A `feature_name` that
still contains path separators contributes several segments, so missing
intermediate directories are created silently. -/
def create_feature_unit_mkdir (fs : FS) (base_path : List String)
    (feature_name : String) : FS :=
  fs.mkdirp (base_path ++ pySplit feature_name (Char.ofNat 47))

/-!  ## `octopus/commands/add.py`, nested-name handling  -/

/-- Result of running `add_feature` up to and including unit creation. -/
inductive AddOutcome where
  | exitErr : String → AddOutcome
  | ok : FS → AddOutcome
deriving DecidableEq, Repr

/-- The nested-path branch of `add_feature` (`commands/add.py` lines 66-101):
for a name containing a path separator, validate that `app/features` exists,
that the FIRST segment names an existing directory, and that this directory
contains a `router.py`; on success the insertion point is that feature's
`features/` subdirectory and the remaining segments are re-joined into the
new (possibly still nested) name. -/
def add_feature_nested (fs : FS) (app_root : List String) (name : String) :
    Except String (List String × String) :=
  let parts := pySplit name (Char.ofNat 47)
  if ¬ fs.pexists (app_root ++ ["features"]) then
    Except.error "app/features/ directory does not exist"
  else
    let potential_parent := app_root ++ ["features", parts.headD ""]
    if ¬ fs.pexists potential_parent then
      Except.error "Parent feature does not exist"
    else if ¬ fs.pexists (potential_parent ++ ["router.py"]) then
      Except.error "exists but is not a feature"
    else
      Except.ok (potential_parent ++ ["features"], joinSep "/" parts.tail)

/-- `add_feature` on a nested name, from the context detection through the
call to `create_feature_unit` (`commands/add.py` lines 66-150 together with
`generators/feature.py` lines 130-131).  `confirm` is the operator's answer
to the overwrite prompt shown when the target already exists. -/
def add_feature_run (fs : FS) (app_root : List String) (name : String)
    (confirm : Bool) : AddOutcome :=
  match add_feature_nested fs app_root name with
  | Except.error e => AddOutcome.exitErr e
  | Except.ok (features_dir, newName) =>
    let fs1 := fs.mkdirp features_dir
    let fs2 :=
      if fs1.pexists (features_dir ++ ["__init__.py"]) then fs1
      else create_file fs1 (features_dir ++ ["__init__.py"]) ""
    let feature_path := features_dir ++ pySplit newName (Char.ofNat 47)
    if fs2.pexists feature_path ∧ ¬ confirm then AddOutcome.exitErr "Aborted"
    else AddOutcome.ok (create_feature_unit_mkdir fs2 features_dir newName)

/-!  ## `octopus/commands/remove.py`, container pruning  -/

/-- The container-pruning step shared by `remove_feature` (lines 157-164) and
`remove_shared` (lines 318-325) of `commands/remove.py`: after the unit at
`unit_path` has been deleted, if its parent directory is named `container`
and now holds nothing, or only an `__init__.py`, delete the parent too. -/
def cleanup_parent_container (fs : FS) (unit_path : List String)
    (container : String) : FS :=
  let parent_dir := unit_path.dropLast
  if parent_dir.getLastD "" = container then
    let remaining_items := fs.iterdir parent_dir
    if remaining_items.length = 0 ∨
        (remaining_items.length = 1 ∧
          (remaining_items.headD ("", Entry.dirE)).1 = "__init__.py") then
      fs.rmtree parent_dir
    else fs
  else fs

/-- `remove_feature`, deletion and pruning steps (`commands/remove.py` lines
153-164). -/
def remove_feature_delete (fs : FS) (feature_path : List String) : FS :=
  cleanup_parent_container (fs.rmtree feature_path) feature_path "features"

/-- `remove_shared`, deletion and pruning steps (`commands/remove.py` lines
314-325). -/
def remove_shared_delete (fs : FS) (shared_path : List String) : FS :=
  cleanup_parent_container (fs.rmtree shared_path) shared_path "shared"

/-!  ## `octopus/generators/shared.py`, advisory-hint rewrite  -/

/-- Python's `needle in hay` substring test. -/
def pyContains (hay needle : String) : Bool :=
  decide (needle.data <:+: hay.data)

/-- Split a character list at the first occurrence of `delim`, or `none` if
`delim` does not occur.  One step of Python's `s.split(delim, maxsplit)`. -/
def splitOnceAt (delim : List Char) : List Char → Option (List Char × List Char)
  | [] => if delim = [] then some ([], []) else none
  | c :: rest =>
    if delim.isPrefixOf (c :: rest) then some ([], (c :: rest).drop delim.length)
    else (splitOnceAt delim rest).map (fun pr => (c :: pr.1, pr.2))

/-- The `full_import_line` checked by `_add_shared_import_to_feature`
(`generators/shared.py` line 128). -/
def full_import_line (absolute_path shared_name : String) : String :=
  "# from " ++ absolute_path ++ ".shared." ++ shared_name ++ ".service import *"

/-- The header lines of the `new_imports` block built by
`_add_shared_import_to_feature` (`generators/shared.py` lines 134-137): the
comment naming the shared module, with the defining path appended when the
module is not defined at the `app` level. -/
def new_imports_header (absolute_path shared_name : String) : String :=
  (if absolute_path ≠ "app" then
    "\n# Auto-imported shared module: " ++ shared_name ++
      " (from " ++ absolute_path ++ ")"
  else "\n# Auto-imported shared module: " ++ shared_name) ++ "\n"

/-- The trailing line of the `new_imports` block
(`generators/shared.py` line 139). -/
def new_imports_schemas_line (absolute_path shared_name : String) : String :=
  "# from " ++ absolute_path ++ ".shared." ++ shared_name ++
    ".schemas import *" ++ "\n"

/-- The `new_imports` text built by `_add_shared_import_to_feature`
(`generators/shared.py` lines 134-139). -/
def new_imports_text (absolute_path shared_name : String) : String :=
  new_imports_header absolute_path shared_name ++
    (full_import_line absolute_path shared_name ++
      ("\n" ++ new_imports_schemas_line absolute_path shared_name))

/-- The content rewrite of `_add_shared_import_to_feature`
(`generators/shared.py` lines 124-150): skip if the exact import line is
already present, otherwise insert the hint block after the leading docstring
when the content has two `"""` delimiters (Python's `split('"""', 2)` with
three or more parts), else append it at the end. -/
def add_shared_import_content (absolute_path shared_name existing_content :
    String) : String :=
  if pyContains existing_content (full_import_line absolute_path shared_name)
  then existing_content
  else
    let new_imports := new_imports_text absolute_path shared_name
    let dq : List Char := "\"\"\"".data
    if pyContains existing_content "\"\"\"" then
      match splitOnceAt dq existing_content.data with
      | some (part0, rest1) =>
        match splitOnceAt dq rest1 with
        | some (part1, part2) =>
          String.mk (part0 ++ dq ++ part1 ++ dq ++ new_imports.data ++ part2)
        | none => existing_content ++ new_imports
      | none => existing_content ++ new_imports
    else existing_content ++ new_imports

/-- `_add_shared_import_to_feature` (`generators/shared.py` lines 104-153):
return unchanged if the feature has no `__init__.py`; read the stub, rewrite
it, write it back.  `none` models `read_text` raising because the path is not
a regular file. -/
def add_shared_import_to_feature (fs : FS) (feature_path : List String)
    (shared_name : String) (shared_dir : List String) : Option FS :=
  let init_file := feature_path ++ ["__init__.py"]
  if ¬ fs.pexists init_file then some fs
  else
    let absolute_path := joinSep "." ("app" :: partsAfterApp shared_dir)
    match fs.statOf init_file with
    | some (Entry.fileE existing_content) =>
      some (fs.writeFile init_file
        (add_shared_import_content absolute_path shared_name existing_content))
    | _ => none

/-!  ## Router discovery (`octopus/templates/templates.py` lines 531-618,
the generated `auto_discover_routers`, together with the generated feature
`router.py` whose module body at line 411 re-invokes the discovery on its
own `features/` directory at import time)  -/

/-- What happens when `auto_discover_routers` tries to import and mount one
child module `features/<name>/router`:

* `ok`: the import succeeds, the module has a `router` attribute and
  `include_router` succeeds;
* `importErr`: the import raises `ModuleNotFoundError`;
* `noRouterAttr`: the import succeeds but the module has no `router`
  attribute;
* `raisesOther`: importing or mounting raises some other exception
  (syntax error in the module body, `AttributeError`, anything else). -/
inductive ModOutcome where
  | ok | importErr | noRouterAttr | raisesOther
deriving DecidableEq, Repr

/-- The `features/` subtree of one unit as the discovery engine sees it:
its directory name, whether `pkgutil.iter_modules` reports it as a package,
the outcome of importing/mounting its router, and its own `features/`
children. -/
inductive FTree where
  | node (name : String) (isPkg : Bool) (outcome : ModOutcome)
      (children : List FTree)

def FTree.name : FTree → String
  | FTree.node n _ _ _ => n

def FTree.isPkg : FTree → Bool
  | FTree.node _ b _ _ => b

def FTree.outcome : FTree → ModOutcome
  | FTree.node _ _ o _ => o

def FTree.children : FTree → List FTree
  | FTree.node _ _ _ cs => cs

/-- An assembled router: its unit name and the sub-routers mounted onto it,
in mount order. -/
structure Router where
  name : String
  mounted : List Router

/-- The `for _, module_name, is_pkg in pkgutil.iter_modules(...)` loop of
`auto_discover_routers` (`templates.py` lines 577-618), as the list of
sub-routers it mounts onto the parent: a child is skipped when it is not a
package or when importing/mounting it fails in any way; when the import of
`features/<name>/router` succeeds, that module body itself calls
`auto_discover_routers` (generated `router.py`, `templates.py` line 411), so
the child router returned by the import already carries its own mounted
subtree. -/
def mountChildrenList : List FTree → List Router
  | [] => []
  | FTree.node n pkg outc cs :: rest =>
    if pkg = true ∧ outc = ModOutcome.ok then
      Router.mk n (mountChildrenList cs) :: mountChildrenList rest
    else mountChildrenList rest

/-- `auto_discover_routers(parent_router, ...)`: every discovered child
router is appended to the parent's mounted list. -/
def auto_discover_routers (parent_router : Router)
    (features_children : List FTree) : Router :=
  Router.mk parent_router.name
    (parent_router.mounted ++ mountChildrenList features_children)

/-- The chronological trace of `include_router` calls performed while
discovering a list of children on behalf of the unit named `parent`: for
each successfully imported child, first the events of the child's own
discovery (run by the child's module body during the import), then the event
`(parent, child)` recording that the child was mounted on the parent. -/
def discoverEvents (parent : String) : List FTree → List (String × String)
  | [] => []
  | FTree.node n pkg outc cs :: rest =>
    (if pkg = true ∧ outc = ModOutcome.ok then
      discoverEvents n cs ++ [(parent, n)]
    else []) ++ discoverEvents parent rest

/-!  ## Basic lemmas about the discovery engine  -/

theorem mountChildrenList_append (l m : List FTree) :
    mountChildrenList (l ++ m) = mountChildrenList l ++ mountChildrenList m := by
  induction l with
  | nil => simp [mountChildrenList]
  | cons c rest ih =>
    cases c with
    | node n pkg outc cs =>
      by_cases h : pkg = true ∧ outc = ModOutcome.ok
      · simp only [List.cons_append, mountChildrenList, if_pos h, ih,
          List.cons_append]
      · simp only [List.cons_append, mountChildrenList, if_neg h, ih]

theorem discoverEvents_append (parent : String) (l m : List FTree) :
    discoverEvents parent (l ++ m) =
      discoverEvents parent l ++ discoverEvents parent m := by
  induction l with
  | nil => simp [discoverEvents]
  | cons c rest ih =>
    cases c with
    | node n pkg outc cs =>
      simp only [List.cons_append, discoverEvents, ih, List.append_assoc]

/-- C1: during router discovery (`auto_discover_routers`), any exception
raised while importing or mounting a single child feature is caught at
per-child granularity: for every list of sibling features containing one
malformed child (one whose import/mount does not succeed), the routers
mounted on the parent are exactly those obtained from the same list with the
malformed child removed — all siblings still mount, the chronological trace
of mounts is unchanged, and assembly completes (the discovery function is
total). -/
theorem auto_discover_fault_isolation (parent : String) (r : Router)
    (pre post : List FTree) (bad : FTree)
    (hbad : bad.outcome ≠ ModOutcome.ok) :
    mountChildrenList (pre ++ bad :: post) = mountChildrenList (pre ++ post) ∧
    discoverEvents parent (pre ++ bad :: post) =
      discoverEvents parent (pre ++ post) ∧
    auto_discover_routers r (pre ++ bad :: post) =
      auto_discover_routers r (pre ++ post) := by
  cases bad with
  | node n pkg outc cs =>
    have hcond : ¬ (pkg = true ∧ outc = ModOutcome.ok) := by
      intro hc
      exact hbad hc.2
    have h1 : mountChildrenList (pre ++ FTree.node n pkg outc cs :: post) =
        mountChildrenList (pre ++ post) := by
      rw [mountChildrenList_append, mountChildrenList_append]
      simp only [mountChildrenList, if_neg hcond]
    have h2 : discoverEvents parent (pre ++ FTree.node n pkg outc cs :: post) =
        discoverEvents parent (pre ++ post) := by
      rw [discoverEvents_append, discoverEvents_append]
      simp only [discoverEvents, if_neg hcond, List.nil_append]
    exact ⟨h1, h2, by simp [auto_discover_routers, h1]⟩

theorem auto_discover_fault_isolation_witness :
    (FTree.node "b" true ModOutcome.raisesOther []).outcome ≠ ModOutcome.ok ∧
    mountChildrenList
        ([FTree.node "a" true ModOutcome.ok []] ++
          FTree.node "b" true ModOutcome.raisesOther [] ::
          [FTree.node "c" true ModOutcome.ok []]) =
      mountChildrenList
        ([FTree.node "a" true ModOutcome.ok []] ++
          [FTree.node "c" true ModOutcome.ok []]) :=
  ⟨by decide,
    (auto_discover_fault_isolation "root" (Router.mk "root" [])
      [FTree.node "a" true ModOutcome.ok []]
      [FTree.node "c" true ModOutcome.ok []]
      (FTree.node "b" true ModOutcome.raisesOther []) (by decide)).1⟩

/-- C3: router assembly is bottom-up.  When a successfully imported child
`node n true ok cs` is mounted on its parent: (a) in the chronological trace
of `include_router` calls, every mount event of the child's own subtree
(`discoverEvents n cs`, produced while the child's `router.py` module body
runs during the import) occurs strictly before the event `(parent, n)` that
attaches the child to the parent; and (b) the router mounted for the child
is `Router.mk n (mountChildrenList cs)`, i.e. it already carries all of the
child's descendant feature routers. -/
theorem auto_discover_bottom_up (parent : String) (pre post : List FTree)
    (n : String) (cs : List FTree) :
    discoverEvents parent (pre ++ FTree.node n true ModOutcome.ok cs :: post) =
      discoverEvents parent pre ++
        (discoverEvents n cs ++ [(parent, n)]) ++ discoverEvents parent post ∧
    mountChildrenList (pre ++ FTree.node n true ModOutcome.ok cs :: post) =
      mountChildrenList pre ++
        Router.mk n (mountChildrenList cs) :: mountChildrenList post := by
  constructor
  · rw [discoverEvents_append]
    simp [discoverEvents]
  · rw [mountChildrenList_append]
    simp [mountChildrenList]

/-!  ## Lemmas about the filesystem model  -/

theorem statOf_entries_append (l₁ l₂ : List (List String × Entry))
    (p : List String) :
    FS.statOf ⟨l₁ ++ l₂⟩ p =
      (FS.statOf ⟨l₁⟩ p).or (FS.statOf ⟨l₂⟩ p) := by
  simp only [FS.statOf, List.find?_append]
  cases h : l₁.find? (fun e => decide (e.1 = p)) <;> simp [h]

theorem statOf_mkdirp_of_exists (fs : FS) (p q : List String) (e : Entry)
    (h : fs.statOf q = some e) : (fs.mkdirp p).statOf q = some e := by
  show FS.statOf ⟨fs.entries ++ _⟩ q = some e
  rw [statOf_entries_append]
  simp [h]

theorem pexists_mkdirp_of_prefix (fs : FS) (p q : List String)
    (hne : q ≠ []) (hpre : q <+: p) : (fs.mkdirp p).pexists q = true := by
  cases hex : fs.statOf q with
  | some e =>
    have := statOf_mkdirp_of_exists fs p q e hex
    simp [FS.pexists, this]
  | none =>
    show (FS.statOf ⟨fs.entries ++ _⟩ q).isSome = true
    rw [statOf_entries_append]
    have hfs : FS.statOf fs q = none := hex
    have h1 : (FS.statOf ⟨fs.entries⟩ q) = none := hfs
    rw [h1, Option.none_or]
    have hmem : (q, Entry.dirE) ∈ (pathPrefixes p).filterMap (fun r =>
        if fs.pexists r then none else some (r, Entry.dirE)) := by
      rw [List.mem_filterMap]
      refine ⟨q, ?_, ?_⟩
      · rw [pathPrefixes, List.mem_map]
        refine ⟨q.length - 1, ?_, ?_⟩
        · rw [List.mem_range]
          have h2 : q.length ≤ p.length := hpre.length_le
          have h3 : 0 < q.length := List.length_pos.mpr hne
          omega
        · have h3 : 0 < q.length := List.length_pos.mpr hne
          have h4 : q.length - 1 + 1 = q.length := by omega
          rw [h4]
          obtain ⟨t, ht⟩ := hpre
          rw [← ht, List.take_append_of_le_length (Nat.le_refl _),
            List.take_length]
      · have : fs.pexists q = false := by simp [FS.pexists, hfs]
        simp [this]
    obtain ⟨v, hv⟩ : ∃ v, ((pathPrefixes p).filterMap (fun r =>
        if fs.pexists r then none else some (r, Entry.dirE))).find?
          (fun e => decide (e.1 = q)) = some v := by
      rw [← Option.isSome_iff_exists, List.find?_isSome]
      exact ⟨(q, Entry.dirE), hmem, by simp⟩
    simp [FS.statOf, hv]

/-- C10: `create_file` on a path whose target already exists leaves that
file's content unchanged — the write is skipped, so scaffold generation
never overwrites an existing generated file in place. -/
theorem create_file_keeps_existing_content (fs : FS) (p : List String)
    (c : String) (e : Entry) (h : fs.statOf p = some e) :
    (create_file fs p c).statOf p = some e := by
  unfold create_file
  have h1 : (fs.mkdirp p.dropLast).statOf p = some e :=
    statOf_mkdirp_of_exists fs p.dropLast p e h
  have h2 : (fs.mkdirp p.dropLast).pexists p = true := by
    simp [FS.pexists, h1]
  simp only [h2, if_true]
  exact h1

theorem create_file_keeps_existing_content_witness :
    (FS.mk [(["app"], Entry.dirE),
      (["app", "router.py"], Entry.fileE "old")]).statOf ["app", "router.py"]
        = some (Entry.fileE "old") ∧
    (create_file
        (FS.mk [(["app"], Entry.dirE),
          (["app", "router.py"], Entry.fileE "old")])
        ["app", "router.py"] "new").statOf ["app", "router.py"]
      = some (Entry.fileE "old") :=
  ⟨by decide,
    create_file_keeps_existing_content
      (FS.mk [(["app"], Entry.dirE), (["app", "router.py"], Entry.fileE "old")])
      ["app", "router.py"] "new" (Entry.fileE "old") (by decide)⟩

/-!  ## C6: unit classification  -/

/-- C6 counterexample: a directory that contains a `router.py` but no
`service.py` is NOT classified as a feature by `_is_octopus_unit` — it is
not classified as a unit at all — contradicting the claim that a present
router entry point alone implies the feature classification. -/
theorem is_octopus_unit_router_only_not_feature :
    (FS.mk [(["x"], Entry.dirE),
      (["x", "router.py"], Entry.fileE "")]).isDir ["x"] = true ∧
    (FS.mk [(["x"], Entry.dirE),
      (["x", "router.py"], Entry.fileE "")]).pexists ["x", "router.py"]
        = true ∧
    is_octopus_unit
        (FS.mk [(["x"], Entry.dirE), (["x", "router.py"], Entry.fileE "")])
        ["x"]
      ≠ (true, "feature") := by
  refine ⟨by decide, by decide, by decide⟩

/-- C6 amended: `_is_octopus_unit` classifies a directory as a feature
exactly when it contains BOTH a `router.py` and a `service.py`; as shared
exactly when it contains a `service.py` and an `__init__.py` and no
`router.py`; and in every other case it is not a unit. -/
theorem is_octopus_unit_classification (fs : FS) (p : List String) :
    (is_octopus_unit fs p = (true, "feature") ↔
      fs.isDir p = true ∧ fs.pexists (p ++ ["router.py"]) = true ∧
        fs.pexists (p ++ ["service.py"]) = true) ∧
    (is_octopus_unit fs p = (true, "shared") ↔
      fs.isDir p = true ∧ fs.pexists (p ++ ["service.py"]) = true ∧
        fs.pexists (p ++ ["__init__.py"]) = true ∧
        fs.pexists (p ++ ["router.py"]) = false) ∧
    (is_octopus_unit fs p = (false, "") ↔
      ¬ (fs.isDir p = true ∧ fs.pexists (p ++ ["router.py"]) = true ∧
          fs.pexists (p ++ ["service.py"]) = true) ∧
      ¬ (fs.isDir p = true ∧ fs.pexists (p ++ ["service.py"]) = true ∧
          fs.pexists (p ++ ["__init__.py"]) = true ∧
          fs.pexists (p ++ ["router.py"]) = false)) := by
  cases hd : fs.isDir p <;>
    cases hr : fs.pexists (p ++ ["router.py"]) <;>
      cases hs : fs.pexists (p ++ ["service.py"]) <;>
        cases hi : fs.pexists (p ++ ["__init__.py"]) <;>
          simp [is_octopus_unit, hd, hr, hs, hi]

/-!  ## C9: pruning of empty containers after removal  -/

theorem pexists_rmtree_of_prefix (fs : FS) (p q : List String)
    (h : p <+: q) : (fs.rmtree p).pexists q = false := by
  simp only [FS.rmtree, FS.pexists, FS.statOf]
  rw [Bool.eq_false_iff, Ne, Option.isSome_iff_exists]
  rintro ⟨v, hv⟩
  rw [Option.map_eq_some'] at hv
  obtain ⟨w, hw, -⟩ := hv
  have hpred := List.find?_some hw
  have hin := List.mem_of_find?_eq_some hw
  rw [List.mem_filter] at hin
  have h1 : w.1 = q := by simpa using hpred
  have h2 : ¬ p <+: w.1 := by simpa using hin.2
  rw [h1] at h2
  exact h2 h

/-- C9: after removing a feature (resp. shared) unit, if the immediate
parent `features` (resp. `shared`) container is left empty or holds only an
`__init__.py`, the container directory itself is deleted — empty containers
do not persist after a remove command. -/
theorem remove_prunes_empty_container (fs : FS) (p : List String) :
    (p.dropLast.getLastD "" = "features" →
      (((fs.rmtree p).iterdir p.dropLast).length = 0 ∨
        (((fs.rmtree p).iterdir p.dropLast).length = 1 ∧
          (((fs.rmtree p).iterdir p.dropLast).headD
            ("", Entry.dirE)).1 = "__init__.py")) →
      (remove_feature_delete fs p).pexists p.dropLast = false) ∧
    (p.dropLast.getLastD "" = "shared" →
      (((fs.rmtree p).iterdir p.dropLast).length = 0 ∨
        (((fs.rmtree p).iterdir p.dropLast).length = 1 ∧
          (((fs.rmtree p).iterdir p.dropLast).headD
            ("", Entry.dirE)).1 = "__init__.py")) →
      (remove_shared_delete fs p).pexists p.dropLast = false) := by
  constructor
  · intro hname hcond
    unfold remove_feature_delete cleanup_parent_container
    simp only [hname, if_true, if_pos hcond]
    exact pexists_rmtree_of_prefix _ _ _ (List.prefix_refl _)
  · intro hname hcond
    unfold remove_shared_delete cleanup_parent_container
    simp only [hname, if_true, if_pos hcond]
    exact pexists_rmtree_of_prefix _ _ _ (List.prefix_refl _)

theorem remove_prunes_empty_container_witness :
    ((["app", "features", "users"] : List String).dropLast.getLastD ""
        = "features" ∧
      (((FS.mk [(["app"], Entry.dirE), (["app", "features"], Entry.dirE),
          (["app", "features", "__init__.py"], Entry.fileE ""),
          (["app", "features", "users"], Entry.dirE),
          (["app", "features", "users", "router.py"], Entry.fileE "")]).rmtree
            ["app", "features", "users"]).iterdir ["app", "features"]).length
        = 1) ∧
    (remove_feature_delete
        (FS.mk [(["app"], Entry.dirE), (["app", "features"], Entry.dirE),
          (["app", "features", "__init__.py"], Entry.fileE ""),
          (["app", "features", "users"], Entry.dirE),
          (["app", "features", "users", "router.py"], Entry.fileE "")])
        ["app", "features", "users"]).pexists ["app", "features"] = false :=
  ⟨⟨by decide, by decide⟩,
    (remove_prunes_empty_container
        (FS.mk [(["app"], Entry.dirE), (["app", "features"], Entry.dirE),
          (["app", "features", "__init__.py"], Entry.fileE ""),
          (["app", "features", "users"], Entry.dirE),
          (["app", "features", "users", "router.py"], Entry.fileE "")])
        ["app", "features", "users"]).1 (by decide) (by decide)⟩

/-!  ## C8: scope resolution failure cases  -/

theorem findRootLoopGo_of_no_marker (fs : FS) (fuel : Nat) (p : List String)
    (h : ∀ n, n ≤ p.length →
      fs.pexists (p.take n ++ ["pyproject.toml"]) = false) :
    findRootLoopGo fs fuel p = [] := by
  induction fuel generalizing p with
  | zero => cases p <;> simp [findRootLoopGo]
  | succ fuel ih =>
    cases p with
    | nil => simp [findRootLoopGo]
    | cons x xs =>
      rw [findRootLoopGo]
      have hself : fs.pexists ((x :: xs) ++ ["pyproject.toml"]) = false := by
        have := h (x :: xs).length (Nat.le_refl _)
        rwa [List.take_length] at this
      rw [hself]
      simp only [Bool.false_eq_true, if_false]
      apply ih
      intro n hn
      have hlen : (x :: xs).dropLast.length = (x :: xs).length - 1 :=
        List.length_dropLast _
      have hn2 : n ≤ (x :: xs).length := by omega
      have := h n hn2
      rw [List.dropLast_eq_take, List.take_take, Nat.min_eq_left (by omega)]
      exact this
      simp

theorem findRootLoop_of_no_marker (fs : FS) (start_dir : List String)
    (h : ∀ n, n ≤ start_dir.length →
      fs.pexists (start_dir.take n ++ ["pyproject.toml"]) = false) :
    findRootLoop fs start_dir = [] :=
  findRootLoopGo_of_no_marker fs start_dir.length start_dir h

/-- C8: `find_project_root` returns `(none, none)` when the upward walk from
the start location reaches the filesystem root without finding a
`pyproject.toml` marker at any level, and `(some project_root, none)` when
the walk stops at a marker but the found root has no `app` directory; in
both cases the guard at the top of `add_feature` exits with code 1. -/
theorem find_project_root_failure_cases (fs : FS) (start_dir : List String) :
    ((∀ n, n ≤ start_dir.length →
        fs.pexists (start_dir.take n ++ ["pyproject.toml"]) = false) →
      find_project_root fs start_dir = (none, none) ∧
        add_feature_guard fs start_dir = Except.error 1) ∧
    (fs.pexists (findRootLoop fs start_dir ++ ["pyproject.toml"]) = true →
      fs.pexists (findRootLoop fs start_dir ++ ["app"]) = false →
      find_project_root fs start_dir =
          (some (findRootLoop fs start_dir), none) ∧
        add_feature_guard fs start_dir = Except.error 1) := by
  constructor
  · intro h
    have hloop : findRootLoop fs start_dir = [] :=
      findRootLoop_of_no_marker fs start_dir h
    have hroot : fs.pexists ["pyproject.toml"] = false := by
      have := h 0 (Nat.zero_le _)
      simpa using this
    have hfpr : find_project_root fs start_dir = (none, none) := by
      simp only [find_project_root, hloop]
      simp [hroot]
    exact ⟨hfpr, by simp [add_feature_guard, hfpr]⟩
  · intro hmark happ
    have hfpr : find_project_root fs start_dir =
        (some (findRootLoop fs start_dir), none) := by
      simp only [find_project_root]
      simp [hmark, happ]
    exact ⟨hfpr, by simp [add_feature_guard, hfpr]⟩

theorem find_project_root_failure_cases_witness :
    ((∀ n, n ≤ (["home", "user"] : List String).length →
        (FS.mk [(["home"], Entry.dirE), (["home", "user"], Entry.dirE)]).pexists
          ((["home", "user"] : List String).take n ++ ["pyproject.toml"])
          = false) ∧
      find_project_root
          (FS.mk [(["home"], Entry.dirE), (["home", "user"], Entry.dirE)])
          ["home", "user"]
        = (none, none)) ∧
    (findRootLoop
        (FS.mk [(["proj"], Entry.dirE),
          (["proj", "pyproject.toml"], Entry.fileE "")])
        ["proj"]
      = ["proj"] ∧
      find_project_root
          (FS.mk [(["proj"], Entry.dirE),
            (["proj", "pyproject.toml"], Entry.fileE "")])
          ["proj"]
        = (some (findRootLoop
            (FS.mk [(["proj"], Entry.dirE),
              (["proj", "pyproject.toml"], Entry.fileE "")])
            ["proj"]), none) ∧
      add_feature_guard
          (FS.mk [(["proj"], Entry.dirE),
            (["proj", "pyproject.toml"], Entry.fileE "")])
          ["proj"]
        = Except.error 1) :=
  ⟨⟨by decide,
      ((find_project_root_failure_cases
        (FS.mk [(["home"], Entry.dirE), (["home", "user"], Entry.dirE)])
        ["home", "user"]).1 (by decide)).1⟩,
    by decide,
    (find_project_root_failure_cases
      (FS.mk [(["proj"], Entry.dirE),
        (["proj", "pyproject.toml"], Entry.fileE "")])
      ["proj"]).2 (by decide) (by decide)⟩

/-!  ## C4: nested-name resolution in `add feature`  -/

/-- Whether an `add_feature` run completed without a non-zero exit. -/
def AddOutcome.isOk : AddOutcome → Bool
  | AddOutcome.ok _ => true
  | AddOutcome.exitErr _ => false

/-- The filesystem produced by a completed `add_feature` run. -/
def AddOutcome.resultFS : AddOutcome → FS
  | AddOutcome.ok fs => fs
  | AddOutcome.exitErr _ => ⟨[]⟩

/-- C4 counterexample: on the three-segment nested name `alpha/beta/gamma`
where only the first segment `alpha` exists as a valid feature and the
intermediate segment `beta` does not exist at all, `add_feature` does NOT
fail: it completes and silently creates the missing intermediate directory
`beta` (which is not a feature — it gets no `router.py`), contradicting the
claim that every intermediate segment is validated before creation and that
a missing segment aborts the command with a non-zero exit. -/
theorem add_feature_nested_silently_creates_intermediate :
    (FS.mk [(["app"], Entry.dirE), (["app", "features"], Entry.dirE),
      (["app", "features", "alpha"], Entry.dirE),
      (["app", "features", "alpha", "router.py"], Entry.fileE "")]).pexists
        ["app", "features", "alpha", "features", "beta"] = false ∧
    (add_feature_run
        (FS.mk [(["app"], Entry.dirE), (["app", "features"], Entry.dirE),
          (["app", "features", "alpha"], Entry.dirE),
          (["app", "features", "alpha", "router.py"], Entry.fileE "")])
        ["app"] "alpha/beta/gamma" false).isOk = true ∧
    (add_feature_run
        (FS.mk [(["app"], Entry.dirE), (["app", "features"], Entry.dirE),
          (["app", "features", "alpha"], Entry.dirE),
          (["app", "features", "alpha", "router.py"], Entry.fileE "")])
        ["app"] "alpha/beta/gamma" false).resultFS.pexists
        ["app", "features", "alpha", "features", "beta"] = true ∧
    (add_feature_run
        (FS.mk [(["app"], Entry.dirE), (["app", "features"], Entry.dirE),
          (["app", "features", "alpha"], Entry.dirE),
          (["app", "features", "alpha", "router.py"], Entry.fileE "")])
        ["app"] "alpha/beta/gamma" false).resultFS.pexists
        ["app", "features", "alpha", "features", "beta", "router.py"]
      = false := by
  refine ⟨by decide, by decide, by decide, by decide⟩

/-- C4 amended: for a nested name, `add_feature` validates only the FIRST
path segment: it exits with an error when `app/features` is missing, when
the first segment does not exist, or when the first segment has no
`router.py`; when the first segment is a valid feature (and the operator
would confirm any overwrite prompt) the command completes, and every deeper
intermediate directory of the remaining segments is silently created by
`create_feature_unit`'s `mkdir(parents=True)` without any validation. -/
theorem add_feature_nested_validates_first_segment_only (fs : FS)
    (app_root : List String) (name : String) (confirm : Bool)
    (hsep : 2 ≤ (pySplit name (Char.ofNat 47)).length) :
    (fs.pexists (app_root ++ ["features"]) = false →
      add_feature_run fs app_root name confirm =
        AddOutcome.exitErr "app/features/ directory does not exist") ∧
    (fs.pexists (app_root ++ ["features"]) = true →
      fs.pexists (app_root ++
          ["features", (pySplit name (Char.ofNat 47)).headD ""]) = false →
      add_feature_run fs app_root name confirm =
        AddOutcome.exitErr "Parent feature does not exist") ∧
    (fs.pexists (app_root ++ ["features"]) = true →
      fs.pexists (app_root ++
          ["features", (pySplit name (Char.ofNat 47)).headD ""]) = true →
      fs.pexists (app_root ++
          ["features", (pySplit name (Char.ofNat 47)).headD ""] ++
          ["router.py"]) = false →
      add_feature_run fs app_root name confirm =
        AddOutcome.exitErr "exists but is not a feature") ∧
    (fs.pexists (app_root ++ ["features"]) = true →
      fs.pexists (app_root ++
          ["features", (pySplit name (Char.ofNat 47)).headD ""]) = true →
      fs.pexists (app_root ++
          ["features", (pySplit name (Char.ofNat 47)).headD ""] ++
          ["router.py"]) = true →
      confirm = true →
      (add_feature_run fs app_root name confirm).isOk = true ∧
        ∀ q, q ≠ [] →
          q <+: pySplit
            (joinSep "/" (pySplit name (Char.ofNat 47)).tail) (Char.ofNat 47) →
          (add_feature_run fs app_root name confirm).resultFS.pexists
            ((app_root ++
              ["features", (pySplit name (Char.ofNat 47)).headD ""] ++
              ["features"]) ++ q) = true) := by
  refine ⟨?_, ?_, ?_, ?_⟩
  · intro h1
    simp [add_feature_run, add_feature_nested, h1]
  · intro h1 h2
    have h2' : fs.pexists (app_root ++
        ["features", (pySplit name (Char.ofNat 47)).head?.getD ""]) = false := by
      simpa using h2
    simp [add_feature_run, add_feature_nested, h1, h2']
  · intro h1 h2 h3
    have h2' : fs.pexists (app_root ++
        ["features", (pySplit name (Char.ofNat 47)).head?.getD ""]) = true := by
      simpa using h2
    have h3' : fs.pexists (app_root ++
        ["features", (pySplit name (Char.ofNat 47)).head?.getD "",
          "router.py"]) = false := by
      simpa using h3
    simp [add_feature_run, add_feature_nested, h1, h2', h3']
  · intro h1 h2 h3 hconfirm
    subst hconfirm
    have h2' : fs.pexists (app_root ++
        ["features", (pySplit name (Char.ofNat 47)).head?.getD ""]) = true := by
      simpa using h2
    have h3' : fs.pexists (app_root ++
        ["features", (pySplit name (Char.ofNat 47)).head?.getD "",
          "router.py"]) = true := by
      simpa using h3
    have hnested : add_feature_nested fs app_root name =
        Except.ok (app_root ++
            ["features", (pySplit name (Char.ofNat 47)).headD ""] ++
            ["features"],
          joinSep "/" (pySplit name (Char.ofNat 47)).tail) := by
      simp [add_feature_nested, h1, h2', h3']
    constructor
    · simp only [add_feature_run, hnested]
      simp [AddOutcome.isOk]
    · intro q hqne hqpre
      simp only [add_feature_run, hnested]
      simp only [not_true, and_false, if_false, AddOutcome.resultFS]
      unfold create_feature_unit_mkdir
      apply pexists_mkdirp_of_prefix
      · simp [hqne]
      · obtain ⟨t, ht⟩ := hqpre
        exact ⟨t, by rw [List.append_assoc, ht]⟩

theorem add_feature_nested_validates_first_segment_only_witness :
    (2 ≤ (pySplit "alpha/beta" (Char.ofNat 47)).length ∧
      (FS.mk [(["app"], Entry.dirE), (["app", "features"], Entry.dirE),
        (["app", "features", "alpha"], Entry.dirE),
        (["app", "features", "alpha", "router.py"],
          Entry.fileE "")]).pexists (["app"] ++ ["features"]) = true) ∧
    (add_feature_run
        (FS.mk [(["app"], Entry.dirE), (["app", "features"], Entry.dirE),
          (["app", "features", "alpha"], Entry.dirE),
          (["app", "features", "alpha", "router.py"], Entry.fileE "")])
        ["app"] "alpha/beta" true).isOk = true ∧
    (add_feature_run
        (FS.mk [(["app"], Entry.dirE), (["app", "features"], Entry.dirE),
          (["app", "features", "alpha"], Entry.dirE),
          (["app", "features", "alpha", "router.py"], Entry.fileE "")])
        ["app"] "alpha/beta" true).resultFS.pexists
      ((["app"] ++
        ["features", (pySplit "alpha/beta" (Char.ofNat 47)).headD ""] ++
        ["features"]) ++ ["beta"]) = true :=
  ⟨⟨by decide, by decide⟩,
    ((add_feature_nested_validates_first_segment_only
        (FS.mk [(["app"], Entry.dirE), (["app", "features"], Entry.dirE),
          (["app", "features", "alpha"], Entry.dirE),
          (["app", "features", "alpha", "router.py"], Entry.fileE "")])
        ["app"] "alpha/beta" true (by decide)).2.2.2
      (by decide) (by decide) (by decide) rfl).1,
    ((add_feature_nested_validates_first_segment_only
        (FS.mk [(["app"], Entry.dirE), (["app", "features"], Entry.dirE),
          (["app", "features", "alpha"], Entry.dirE),
          (["app", "features", "alpha", "router.py"], Entry.fileE "")])
        ["app"] "alpha/beta" true (by decide)).2.2.2
      (by decide) (by decide) (by decide) rfl).2
      ["beta"] (by decide) (by decide)⟩

/-!  ## C7: idempotence of the advisory-hint rewrite  -/

theorem pyContains_iff (hay needle : String) :
    pyContains hay needle = true ↔ needle.data <:+: hay.data := by
  simp [pyContains]

theorem line_infix_new_imports (a n : String) :
    (full_import_line a n).data <:+: (new_imports_text a n).data :=
  ⟨(new_imports_header a n).data,
    ("\n" ++ new_imports_schemas_line a n).data,
    by simp [new_imports_text, List.append_assoc]⟩

theorem contains_line_after_rewrite (a n c : String)
    (h : pyContains c (full_import_line a n) = false) :
    pyContains (add_shared_import_content a n c) (full_import_line a n)
      = true := by
  unfold add_shared_import_content
  rw [h]
  simp only [Bool.false_eq_true, if_false,
    show ("\"\"\"" : String).data = ['\"', '\"', '\"'] from rfl]
  obtain ⟨u, v, huv⟩ := line_infix_new_imports a n
  have happend : (full_import_line a n).data <:+:
      (c ++ new_imports_text a n).data := by
    refine ⟨c.data ++ u, v, ?_⟩
    rw [String.data_append, ← huv]
    simp [List.append_assoc]
  by_cases hdq : pyContains c "\"\"\"" = true
  · rw [if_pos hdq]
    cases h1 : splitOnceAt ['\"', '\"', '\"'] c.data with
    | none =>
      rw [pyContains_iff]
      exact happend
    | some pr1 =>
      obtain ⟨part0, rest1⟩ := pr1
      dsimp only
      cases h2 : splitOnceAt ['\"', '\"', '\"'] rest1 with
      | none =>
        rw [pyContains_iff]
        exact happend
      | some pr2 =>
        obtain ⟨part1, part2⟩ := pr2
        rw [pyContains_iff]
        refine ⟨(part0 ++ ['\"', '\"', '\"'] ++ part1 ++
          ['\"', '\"', '\"']) ++ u, v ++ part2, ?_⟩
        show _ = part0 ++ ['\"', '\"', '\"'] ++ part1 ++ ['\"', '\"', '\"'] ++
          (new_imports_text a n).data ++ part2
        rw [← huv]
        simp [List.append_assoc]
  · rw [if_neg hdq]
    rw [pyContains_iff]
    exact happend

theorem add_shared_import_content_idem (a n c : String) :
    add_shared_import_content a n (add_shared_import_content a n c)
      = add_shared_import_content a n c := by
  by_cases h : pyContains c (full_import_line a n) = true
  · have hc : add_shared_import_content a n c = c := by
      unfold add_shared_import_content
      rw [if_pos h]
    rw [hc, hc]
  · have hf : pyContains c (full_import_line a n) = false :=
      Bool.eq_false_iff.mpr h
    have h2 := contains_line_after_rewrite a n c hf
    conv_lhs => rw [add_shared_import_content]
    rw [if_pos h2]

theorem find?_writeFile_entries (l : List (List String × Entry))
    (p : List String) (c : String) :
    (l.map (fun e => if e.1 = p then (e.1, Entry.fileE c) else e)).find?
        (fun e => decide (e.1 = p)) =
      (l.find? (fun e => decide (e.1 = p))).map
        (fun _ => (p, Entry.fileE c)) := by
  induction l with
  | nil => simp
  | cons e rest ih =>
    by_cases he : e.1 = p
    · simp [he, List.find?_cons]
    · have hd : (decide (e.1 = p)) = false := by simp [he]
      simp only [List.map_cons, if_neg he, List.find?_cons, hd]
      exact ih

theorem statOf_writeFile_self (fs : FS) (p : List String) (c : String)
    (h : fs.pexists p = true) :
    (fs.writeFile p c).statOf p = some (Entry.fileE c) := by
  obtain ⟨w, hw⟩ : ∃ w, fs.entries.find? (fun e => decide (e.1 = p))
      = some w := by
    have hs : (fs.entries.find? (fun e => decide (e.1 = p))).isSome
        = true := by
      rw [FS.pexists, FS.statOf, Option.isSome_map'] at h
      exact h
    exact Option.isSome_iff_exists.mp hs
  show ((fs.entries.map (fun e =>
      if e.1 = p then (e.1, Entry.fileE c) else e)).find?
      (fun e => decide (e.1 = p))).map (fun e => e.2)
    = some (Entry.fileE c)
  rw [find?_writeFile_entries, hw]
  simp

theorem pexists_writeFile_self (fs : FS) (p : List String) (c : String)
    (h : fs.pexists p = true) : (fs.writeFile p c).pexists p = true := by
  simp [FS.pexists, statOf_writeFile_self fs p c h]

theorem writeFile_writeFile (fs : FS) (p : List String) (c₁ c₂ : String) :
    (fs.writeFile p c₁).writeFile p c₂ = fs.writeFile p c₂ := by
  simp only [FS.writeFile, List.map_map]
  congr 1
  apply List.map_congr_left
  intro e _
  by_cases he : e.1 = p <;> simp [he]

/-- C7: the advisory-hint rewrite performed when a shared module is created
(`_add_shared_import_to_feature`) is idempotent on a feature's
initialization stub: running it a second time for the same shared module
(same shared name, same defining `shared` directory, hence the same
full import path) leaves the filesystem exactly as after the first run, so
re-running the propagation never duplicates a hint entry in any feature's
stub. -/
theorem add_shared_import_to_feature_idem (fs : FS)
    (feature_path : List String) (shared_name : String)
    (shared_dir : List String) :
    (add_shared_import_to_feature fs feature_path shared_name
        shared_dir).bind
      (fun fs1 =>
        add_shared_import_to_feature fs1 feature_path shared_name shared_dir)
      = add_shared_import_to_feature fs feature_path shared_name shared_dir
    := by
  by_cases hex : fs.pexists (feature_path ++ ["__init__.py"]) = true
  · cases hstat : fs.statOf (feature_path ++ ["__init__.py"]) with
    | none =>
      exfalso
      rw [FS.pexists, hstat] at hex
      simp at hex
    | some e =>
      cases e with
      | dirE =>
        unfold add_shared_import_to_feature
        simp [hex, hstat]
      | fileE content =>
        have h1 : add_shared_import_to_feature fs feature_path shared_name
            shared_dir = some (fs.writeFile (feature_path ++ ["__init__.py"])
              (add_shared_import_content
                (joinSep "." ("app" :: partsAfterApp shared_dir))
                shared_name content)) := by
          unfold add_shared_import_to_feature
          simp [hex, hstat]
        rw [h1, Option.some_bind]
        set u := add_shared_import_content
          (joinSep "." ("app" :: partsAfterApp shared_dir))
          shared_name content with hu
        have hex2 : (fs.writeFile (feature_path ++ ["__init__.py"]) u).pexists
            (feature_path ++ ["__init__.py"]) = true :=
          pexists_writeFile_self fs _ u hex
        have hstat2 : (fs.writeFile (feature_path ++ ["__init__.py"]) u).statOf
            (feature_path ++ ["__init__.py"]) = some (Entry.fileE u) :=
          statOf_writeFile_self fs _ u hex
        have hidem : add_shared_import_content
            (joinSep "." ("app" :: partsAfterApp shared_dir)) shared_name u
            = u := by
          rw [hu]
          exact add_shared_import_content_idem _ shared_name content
        unfold add_shared_import_to_feature
        rw [if_neg (by simp [hex2])]
        simp only [hstat2, hidem, writeFile_writeFile]
  · unfold add_shared_import_to_feature
    simp [hex]

/-!  ## C2/C5: characterization of `_collect_available_shared_modules`  -/

/-- The path suffix, below the `app` root, of the unit reached by descending
through the feature chain `cs`: each feature lives inside a `features`
container of its parent. -/
def featureChainPath : List String → List String
  | [] => []
  | c :: rest => ["features", c] ++ featureChainPath rest

theorem featureChainPath_append (l m : List String) :
    featureChainPath (l ++ m) = featureChainPath l ++ featureChainPath m := by
  induction l with
  | nil => simp [featureChainPath]
  | cons c rest ih => simp [featureChainPath, ih]

theorem mem_featureChainPath (cs : List String) (x : String)
    (h : x ∈ featureChainPath cs) : x = "features" ∨ x ∈ cs := by
  induction cs with
  | nil => simp [featureChainPath] at h
  | cons c rest ih =>
    simp only [featureChainPath, List.cons_append, List.mem_cons,
      List.nil_append] at h
    rcases h with h | h | h
    · exact Or.inl h
    · exact Or.inr (by simp [h])
    · rcases ih h with h' | h'
      · exact Or.inl h'
      · exact Or.inr (List.mem_cons_of_mem _ h')

theorem walkUpToAppGo_succ (fuel : Nat) (p : List String) (hne : p ≠ []) :
    walkUpToAppGo (fuel + 1) p =
      if p.getLastD "" = "app" then p else walkUpToAppGo fuel p.dropLast := by
  cases p with
  | nil => exact absurd rfl hne
  | cons x xs => rfl

theorem partsAfterAppGo_succ (fuel : Nat) (p : List String) (hne : p ≠ []) :
    partsAfterAppGo (fuel + 1) p =
      if p.getLastD "" = "app" then []
      else partsAfterAppGo fuel p.dropLast ++ [p.getLastD ""] := by
  cases p with
  | nil => exact absurd rfl hne
  | cons x xs => rfl

theorem levelsLoopGo_succ_succ (fuel : Nat) (p : List String) :
    levelsLoopGo (fuel + 2) p =
      if p.getLastD "" = "app" then []
      else if p.dropLast.getLastD "" = "features" then
        levelsLoopGo fuel p.dropLast.dropLast ++ [p]
      else [p] := rfl

theorem walkUpToApp_eq (appPath : List String) (hne : appPath ≠ [])
    (happ : appPath.getLastD "" = "app") (suffix : List String)
    (hsuf : ∀ c ∈ suffix, c ≠ "app") :
    walkUpToApp (appPath ++ suffix) = appPath := by
  induction suffix using List.reverseRecOn with
  | nil =>
    rw [List.append_nil, walkUpToApp]
    obtain ⟨x, xs, hx⟩ : ∃ x xs, appPath = x :: xs := by
      cases appPath with
      | nil => exact absurd rfl hne
      | cons x xs => exact ⟨x, xs, rfl⟩
    subst hx
    rw [List.length_cons, walkUpToAppGo_succ _ _ (by simp), if_pos happ]
  | append_singleton l c ih =>
    have hc : c ≠ "app" := hsuf c (by simp)
    rw [← List.append_assoc, walkUpToApp]
    have hlen : (appPath ++ l ++ [c]).length = (appPath ++ l).length + 1 := by
      simp only [List.length_append, List.length_cons, List.length_nil]
    rw [hlen, walkUpToAppGo_succ _ _ (by simp),
      List.getLastD_concat, if_neg hc, List.dropLast_concat]
    exact ih (fun x hx => hsuf x (by simp [hx]))

theorem partsAfterApp_eq (appPath : List String) (hne : appPath ≠ [])
    (happ : appPath.getLastD "" = "app") (suffix : List String)
    (hsuf : ∀ c ∈ suffix, c ≠ "app") :
    partsAfterApp (appPath ++ suffix) = suffix := by
  induction suffix using List.reverseRecOn with
  | nil =>
    rw [List.append_nil, partsAfterApp]
    obtain ⟨x, xs, hx⟩ : ∃ x xs, appPath = x :: xs := by
      cases appPath with
      | nil => exact absurd rfl hne
      | cons x xs => exact ⟨x, xs, rfl⟩
    subst hx
    rw [List.length_cons, partsAfterAppGo_succ _ _ (by simp), if_pos happ]
  | append_singleton l c ih =>
    have hc : c ≠ "app" := hsuf c (by simp)
    rw [← List.append_assoc, partsAfterApp]
    have hlen : (appPath ++ l ++ [c]).length = (appPath ++ l).length + 1 := by
      simp only [List.length_append, List.length_cons, List.length_nil]
    rw [hlen, partsAfterAppGo_succ _ _ (by simp),
      List.getLastD_concat, if_neg hc, List.dropLast_concat]
    show partsAfterApp (appPath ++ l) ++ [c] = l ++ [c]
    rw [ih (fun x hx => hsuf x (by simp [hx]))]

theorem levelsLoopGo_app (fuel : Nat) (p : List String)
    (h : p.getLastD "" = "app") : levelsLoopGo fuel p = [] := by
  match fuel with
  | 0 =>
    rw [show levelsLoopGo 0 p
      = if p.getLastD "" = "app" then [] else [p] from rfl, if_pos h]
  | 1 =>
    rw [show levelsLoopGo 1 p
      = if p.getLastD "" = "app" then [] else [p] from rfl, if_pos h]
  | (f + 2) => rw [levelsLoopGo_succ_succ, if_pos h]

theorem levelsLoop_eq (appPath : List String) (hne : appPath ≠ [])
    (happ : appPath.getLastD "" = "app") (cs : List String)
    (hcs : ∀ c ∈ cs, c ≠ "app") :
    levelsLoop (appPath ++ featureChainPath cs) =
      (List.range cs.length).map
        (fun k => appPath ++ featureChainPath (cs.take (k + 1))) := by
  induction cs using List.reverseRecOn with
  | nil =>
    rw [featureChainPath, List.append_nil, levelsLoop,
      levelsLoopGo_app _ _ happ]
    simp
  | append_singleton l c ih =>
    have hc : c ≠ "app" := hcs c (by simp)
    rw [featureChainPath_append]
    have hchain : featureChainPath [c] = ["features"] ++ [c] := rfl
    rw [hchain, ← List.append_assoc, ← List.append_assoc]
    have hlen : (appPath ++ featureChainPath l ++ ["features"] ++ [c]).length
        = (appPath ++ featureChainPath l).length + 2 := by
      simp only [List.length_append, List.length_cons, List.length_nil]
    rw [levelsLoop, hlen, levelsLoopGo_succ_succ]
    rw [List.getLastD_concat, if_neg hc, List.dropLast_concat,
      List.getLastD_concat, if_pos rfl, List.dropLast_concat]
    have hmain : levelsLoopGo (appPath ++ featureChainPath l).length
        (appPath ++ featureChainPath l) =
        (List.range l.length).map
          (fun k => appPath ++ featureChainPath (l.take (k + 1))) :=
      ih (fun x hx => hcs x (by simp [hx]))
    rw [hmain, List.length_append, List.length_cons, List.length_nil,
      List.range_succ, List.map_append]
    congr 1
    · apply List.map_congr_left
      intro k hk
      rw [List.mem_range] at hk
      rw [List.take_append_of_le_length (by omega)]
    · have htake : (l ++ [c]).take (l.length + 1) = l ++ [c] := by
        have h1 : (l ++ [c]).length = l.length + 1 := by simp
        rw [← h1, List.take_length]
      simp only [List.map_cons, List.map_nil, htake, featureChainPath_append,
        hchain]
      simp [List.append_assoc]

theorem mem_keys_dictInsert {α : Type} (d : List (String × α)) (k : String)
    (v : α) (a : String) :
    a ∈ (dictInsert d k v).map Prod.fst ↔
      a = k ∨ a ∈ d.map Prod.fst := by
  induction d with
  | nil => simp [dictInsert]
  | cons e rest ih =>
    by_cases he : e.1 = k
    · rw [dictInsert, if_pos he]
      simp only [List.map_cons, List.mem_cons, he]
      tauto
    · rw [dictInsert, if_neg he]
      simp only [List.map_cons, List.mem_cons, ih]
      tauto

theorem mem_keys_foldl_dictInsert {α : Type} (cond : α → Prop)
    [DecidablePred cond] (key : α → String) (val : α → String × String) :
    ∀ (items : List α) (acc : List (String × String × String)) (a : String),
      a ∈ ((items.foldl (fun acc2 item =>
          if cond item then dictInsert acc2 (key item) (val item)
          else acc2) acc).map Prod.fst) ↔
        a ∈ acc.map Prod.fst ∨ ∃ item ∈ items, cond item ∧ a = key item := by
  intro items
  induction items with
  | nil => simp
  | cons it rest ih =>
    intro acc a
    rw [List.foldl_cons]
    by_cases hc : cond it
    · rw [if_pos hc, ih, mem_keys_dictInsert]
      simp only [List.mem_cons]
      constructor
      · rintro ((h | h) | ⟨x, hx, hcx, hax⟩)
        · exact Or.inr ⟨it, Or.inl rfl, hc, h⟩
        · exact Or.inl h
        · exact Or.inr ⟨x, Or.inr hx, hcx, hax⟩
      · rintro (h | ⟨x, (hx | hx), hcx, hax⟩)
        · exact Or.inl (Or.inr h)
        · exact Or.inl (Or.inl (hx ▸ hax))
        · exact Or.inr ⟨x, hx, hcx, hax⟩
    · rw [if_neg hc, ih]
      simp only [List.mem_cons]
      constructor
      · rintro (h | ⟨x, hx, hcx, hax⟩)
        · exact Or.inl h
        · exact Or.inr ⟨x, Or.inr hx, hcx, hax⟩
      · rintro (h | ⟨x, (hx | hx), hcx, hax⟩)
        · exact Or.inl h
        · exact absurd (hx ▸ hcx) hc
        · exact Or.inr ⟨x, hx, hcx, hax⟩

/-- A directory `name` inside the `shared` container of `level` that
`_collect_available_shared_modules` records: the `shared` container exists
and is a directory, and the child is a directory containing an
`__init__.py`. -/
def sharedUnitVisible (fs : FS) (level : List String) (name : String) :
    Prop :=
  fs.pexists (level ++ ["shared"]) = true ∧
  fs.isDir (level ++ ["shared"]) = true ∧
  (name, Entry.dirE) ∈ fs.iterdir (level ++ ["shared"]) ∧
  fs.pexists ((level ++ ["shared"]) ++ [name, "__init__.py"]) = true

instance (fs : FS) (level : List String) (name : String) :
    Decidable (sharedUnitVisible fs level name) := by
  unfold sharedUnitVisible
  infer_instance

/-- The `base_import_path` computed for the `shared` container of `level`
(`generators/feature.py` lines 97-106). -/
def baseImportPathOf (level : List String) : String :=
  joinSep "." (("app" :: partsAfterApp (level ++ ["shared"])).dropLast)

theorem mem_keys_collectLevel (fs : FS)
    (acc : List (String × String × String)) (level : List String)
    (a : String) :
    a ∈ (collectLevel fs acc level).map Prod.fst ↔
      a ∈ acc.map Prod.fst ∨
        ∃ name, sharedUnitVisible fs level name ∧
          a = baseImportPathOf level ++ ".shared." ++ name := by
  unfold collectLevel
  by_cases hdir : fs.pexists (level ++ ["shared"]) = true ∧
      fs.isDir (level ++ ["shared"]) = true
  · rw [if_pos hdir]
    rw [mem_keys_foldl_dictInsert
      (fun item : String × Entry => item.2 = Entry.dirE ∧
        fs.pexists ((level ++ ["shared"]) ++ [item.1, "__init__.py"]) = true)
      (fun item =>
        joinSep "." (("app" :: partsAfterApp
          (level ++ ["shared"])).dropLast) ++ ".shared." ++ item.1)
      (fun item => (item.1,
        joinSep "." (("app" :: partsAfterApp
          (level ++ ["shared"])).dropLast)))]
    constructor
    · rintro (h | ⟨⟨nm, ent⟩, hmem, ⟨hent, hinit⟩, ha⟩)
      · exact Or.inl h
      · refine Or.inr ⟨nm, ⟨hdir.1, hdir.2, ?_, ?_⟩, ha⟩
        · rw [← hent]
          exact hmem
        · exact hinit
    · rintro (h | ⟨nm, ⟨h1, h2, hmem, hinit⟩, ha⟩)
      · exact Or.inl h
      · exact Or.inr ⟨(nm, Entry.dirE), hmem, ⟨rfl, hinit⟩, ha⟩
  · rw [if_neg hdir]
    constructor
    · intro h
      exact Or.inl h
    · rintro (h | ⟨nm, ⟨h1, h2, _, _⟩, _⟩)
      · exact h
      · exact absurd ⟨h1, h2⟩ hdir

theorem mem_keys_levels_foldl (fs : FS) :
    ∀ (levels : List (List String))
      (acc : List (String × String × String)) (a : String),
      a ∈ ((levels.foldl (collectLevel fs) acc).map Prod.fst) ↔
        a ∈ acc.map Prod.fst ∨
          ∃ level ∈ levels, ∃ name, sharedUnitVisible fs level name ∧
            a = baseImportPathOf level ++ ".shared." ++ name := by
  intro levels
  induction levels with
  | nil => simp
  | cons lv rest ih =>
    intro acc a
    rw [List.foldl_cons, ih, mem_keys_collectLevel]
    simp only [List.mem_cons]
    constructor
    · rintro ((h | ⟨nm, hv, ha⟩) | ⟨x, hx, hex⟩)
      · exact Or.inl h
      · exact Or.inr ⟨lv, Or.inl rfl, nm, hv, ha⟩
      · exact Or.inr ⟨x, Or.inr hx, hex⟩
    · rintro (h | ⟨x, (hx | hx), hex⟩)
      · exact Or.inl (Or.inl h)
      · exact Or.inl (Or.inr (hx ▸ hex))
      · exact Or.inr ⟨x, hx, hex⟩

theorem joinSep_append (sep : String) (l m : List String) (hl : l ≠ [])
    (hm : m ≠ []) :
    joinSep sep (l ++ m) = joinSep sep l ++ sep ++ joinSep sep m := by
  induction l with
  | nil => exact absurd rfl hl
  | cons a rest ih =>
    cases rest with
    | nil =>
      cases m with
      | nil => exact absurd rfl hm
      | cons b bs => simp [joinSep]
    | cons r rs =>
      have h1 : joinSep sep ((a :: r :: rs) ++ m)
          = a ++ sep ++ joinSep sep ((r :: rs) ++ m) := rfl
      rw [h1, ih (by simp)]
      have h2 : joinSep sep (a :: r :: rs) = a ++ sep ++ joinSep sep (r :: rs)
        := rfl
      rw [h2]
      simp [String.append_assoc]

/-- The import path of the shared unit `name` visible at chain depth `k`:
`app[.features.c1...].shared.name`. -/
def fullImportPath (cs : List String) (k : Nat) (name : String) : String :=
  joinSep "." ("app" :: featureChainPath (cs.take k)) ++ ".shared." ++ name

theorem baseImportPathOf_chain (appPath : List String) (hne : appPath ≠ [])
    (happ : appPath.getLastD "" = "app") (cs : List String)
    (hcs : ∀ c ∈ cs, c ≠ "app") (k : Nat) :
    baseImportPathOf (appPath ++ featureChainPath (cs.take k))
      = joinSep "." ("app" :: featureChainPath (cs.take k)) := by
  unfold baseImportPathOf
  have hparts : partsAfterApp
      ((appPath ++ featureChainPath (cs.take k)) ++ ["shared"])
      = featureChainPath (cs.take k) ++ ["shared"] := by
    rw [List.append_assoc]
    apply partsAfterApp_eq appPath hne happ
    intro x hx
    rw [List.mem_append] at hx
    rcases hx with hx | hx
    · rcases mem_featureChainPath _ _ hx with h | h
      · simp [h]
      · exact hcs x (List.mem_of_mem_take h)
    · simp at hx
      simp [hx]
  rw [hparts]
  have hsplit : ("app" :: (featureChainPath (cs.take k) ++ ["shared"]))
      = ("app" :: featureChainPath (cs.take k)) ++ ["shared"] := by
    simp
  rw [hsplit, List.dropLast_concat]

theorem featureChainPath_ne_nil (cs : List String) (h : cs ≠ []) :
    featureChainPath cs ≠ [] := by
  cases cs with
  | nil => exact absurd rfl h
  | cons c rest => simp [featureChainPath]

theorem fullImportPath_length_lt (cs : List String) (k1 k2 : Nat)
    (name : String) (h12 : k1 < k2) (h2 : k2 ≤ cs.length) :
    (fullImportPath cs k1 name).length < (fullImportPath cs k2 name).length
    := by
  have htake : cs.take k2 = cs.take k1 ++ (cs.take k2).drop k1 := by
    conv_lhs => rw [← List.take_append_drop k1 (cs.take k2)]
    rw [List.take_take, Nat.min_eq_left (Nat.le_of_lt h12)]
  have hmid : (cs.take k2).drop k1 ≠ [] := by
    intro hnil
    have hlen := congrArg List.length hnil
    rw [List.length_drop, List.length_take] at hlen
    simp at hlen
    omega
  have hchain : featureChainPath (cs.take k2)
      = featureChainPath (cs.take k1) ++
        featureChainPath ((cs.take k2).drop k1) := by
    rw [← featureChainPath_append, ← htake]
  have hjoin : joinSep "." ("app" :: featureChainPath (cs.take k2))
      = joinSep "." ("app" :: featureChainPath (cs.take k1)) ++ "." ++
        joinSep "." (featureChainPath ((cs.take k2).drop k1)) := by
    rw [hchain, ← List.cons_append]
    exact joinSep_append "." _ _ (by simp)
      (featureChainPath_ne_nil _ hmid)
  unfold fullImportPath
  rw [hjoin]
  have hdot : ("." : String).length = 1 := rfl
  simp only [String.length_append]
  omega

theorem fullImportPath_injective_depth (cs : List String) (k1 k2 : Nat)
    (name : String) (h12 : k1 < k2) (h2 : k2 ≤ cs.length) :
    fullImportPath cs k1 name ≠ fullImportPath cs k2 name := by
  intro heq
  have := congrArg String.length heq
  have hlt := fullImportPath_length_lt cs k1 k2 name h12 h2
  omega

/-- C2: for a feature unit created at nesting depth `N` (below the feature
chain `cs`, `N = cs.length`), `_collect_available_shared_modules` applied to
the `features` container it is created in returns exactly the shared units
recorded in the `shared` containers of levels `0` (the `app` root) through
`N` (the unit's own level), each keyed by its full ImportPath — and the keys
produced for the same bare name at two different depths are always distinct,
so such entries are never merged or shadowed. -/
theorem collect_visible_shared_exact (fs : FS) (appPath cs : List String)
    (hne : appPath ≠ []) (happ : appPath.getLastD "" = "app")
    (hcs : ∀ c ∈ cs, c ≠ "app") :
    (∀ a, a ∈ (collect_available_shared_modules fs
        (appPath ++ featureChainPath cs ++ ["features"])).map Prod.fst ↔
      ∃ k, k ≤ cs.length ∧ ∃ name,
        sharedUnitVisible fs (appPath ++ featureChainPath (cs.take k)) name ∧
          a = fullImportPath cs k name) ∧
    (∀ k1 k2 name, k1 < k2 → k2 ≤ cs.length →
      fullImportPath cs k1 name ≠ fullImportPath cs k2 name) := by
  have h0 : appPath ++ featureChainPath (cs.take 0) = appPath := by
    simp [featureChainPath]
  have hbases : ∀ (k : Nat) (nm : String),
      baseImportPathOf (appPath ++ featureChainPath (cs.take k)) ++
        ".shared." ++ nm = fullImportPath cs k nm := by
    intro k nm
    rw [baseImportPathOf_chain appPath hne happ cs hcs k]
    rfl
  constructor
  · intro a
    have hwalk : walkUpToApp
        (appPath ++ featureChainPath cs ++ ["features"]) = appPath := by
      rw [List.append_assoc]
      apply walkUpToApp_eq appPath hne happ
      intro x hx
      rw [List.mem_append] at hx
      rcases hx with hx | hx
      · rcases mem_featureChainPath _ _ hx with h | h
        · simp [h]
        · exact hcs x h
      · simp only [List.mem_singleton] at hx
        simp [hx]
    have hdrop : (appPath ++ featureChainPath cs ++ ["features"]).dropLast
        = appPath ++ featureChainPath cs := List.dropLast_concat ..
    show a ∈ ((walkUpToApp (appPath ++ featureChainPath cs ++ ["features"])
        :: levelsLoop
          (appPath ++ featureChainPath cs ++ ["features"]).dropLast).foldl
        (collectLevel fs) []).map Prod.fst ↔ _
    rw [hwalk, hdrop, levelsLoop_eq appPath hne happ cs hcs,
      mem_keys_levels_foldl]
    simp only [List.map_nil, List.not_mem_nil, false_or, List.mem_cons,
      List.mem_map, List.mem_range]
    constructor
    · rintro ⟨level, (hlv | ⟨k, hk, hfk⟩), nm, hvis, ha⟩
      · refine ⟨0, Nat.zero_le _, nm, ?_, ?_⟩
        · rw [h0, ← hlv]
          exact hvis
        · rw [← hbases 0 nm, h0, ← hlv]
          exact ha
      · refine ⟨k + 1, by omega, nm, ?_, ?_⟩
        · rw [← hfk] at hvis
          exact hvis
        · rw [← hbases (k + 1) nm]
          rw [← hfk] at ha
          exact ha
    · rintro ⟨k, hk, nm, hvis, ha⟩
      cases k with
      | zero =>
        refine ⟨appPath, Or.inl rfl, nm, ?_, ?_⟩
        · rw [h0] at hvis
          exact hvis
        · rw [← hbases 0 nm, h0] at ha
          exact ha
      | succ j =>
        refine ⟨appPath ++ featureChainPath (cs.take (j + 1)),
          Or.inr ⟨j, by omega, rfl⟩, nm, hvis, ?_⟩
        rw [← hbases (j + 1) nm] at ha
        exact ha
  · intro k1 k2 name h12 h2
    exact fullImportPath_injective_depth cs k1 k2 name h12 h2

theorem collect_visible_shared_exact_witness :
    ((["app"] : List String) ≠ [] ∧
      (["app"] : List String).getLastD "" = "app" ∧
      (∀ c ∈ (["users"] : List String), c ≠ "app")) ∧
    "app.shared.auth" ∈ (collect_available_shared_modules
      (FS.mk [(["app"], Entry.dirE), (["app", "features"], Entry.dirE),
        (["app", "shared"], Entry.dirE),
        (["app", "shared", "auth"], Entry.dirE),
        (["app", "shared", "auth", "__init__.py"], Entry.fileE ""),
        (["app", "features", "users"], Entry.dirE),
        (["app", "features", "users", "router.py"], Entry.fileE ""),
        (["app", "features", "users", "features"], Entry.dirE),
        (["app", "features", "users", "shared"], Entry.dirE),
        (["app", "features", "users", "shared", "auth"], Entry.dirE),
        (["app", "features", "users", "shared", "auth", "__init__.py"],
          Entry.fileE "")])
      (["app"] ++ featureChainPath ["users"] ++ ["features"])).map Prod.fst ∧
    "app.features.users.shared.auth" ∈ (collect_available_shared_modules
      (FS.mk [(["app"], Entry.dirE), (["app", "features"], Entry.dirE),
        (["app", "shared"], Entry.dirE),
        (["app", "shared", "auth"], Entry.dirE),
        (["app", "shared", "auth", "__init__.py"], Entry.fileE ""),
        (["app", "features", "users"], Entry.dirE),
        (["app", "features", "users", "router.py"], Entry.fileE ""),
        (["app", "features", "users", "features"], Entry.dirE),
        (["app", "features", "users", "shared"], Entry.dirE),
        (["app", "features", "users", "shared", "auth"], Entry.dirE),
        (["app", "features", "users", "shared", "auth", "__init__.py"],
          Entry.fileE "")])
      (["app"] ++ featureChainPath ["users"] ++ ["features"])).map Prod.fst ∧
    fullImportPath ["users"] 0 "auth" ≠ fullImportPath ["users"] 1 "auth" :=
  ⟨⟨by decide, by decide, by decide⟩,
    ((collect_visible_shared_exact
      (FS.mk [(["app"], Entry.dirE), (["app", "features"], Entry.dirE),
        (["app", "shared"], Entry.dirE),
        (["app", "shared", "auth"], Entry.dirE),
        (["app", "shared", "auth", "__init__.py"], Entry.fileE ""),
        (["app", "features", "users"], Entry.dirE),
        (["app", "features", "users", "router.py"], Entry.fileE ""),
        (["app", "features", "users", "features"], Entry.dirE),
        (["app", "features", "users", "shared"], Entry.dirE),
        (["app", "features", "users", "shared", "auth"], Entry.dirE),
        (["app", "features", "users", "shared", "auth", "__init__.py"],
          Entry.fileE "")])
      ["app"] ["users"] (by decide) (by decide) (by decide)).1
        "app.shared.auth").mpr
      ⟨0, Nat.zero_le _, "auth", by decide, by decide⟩,
    ((collect_visible_shared_exact
      (FS.mk [(["app"], Entry.dirE), (["app", "features"], Entry.dirE),
        (["app", "shared"], Entry.dirE),
        (["app", "shared", "auth"], Entry.dirE),
        (["app", "shared", "auth", "__init__.py"], Entry.fileE ""),
        (["app", "features", "users"], Entry.dirE),
        (["app", "features", "users", "router.py"], Entry.fileE ""),
        (["app", "features", "users", "features"], Entry.dirE),
        (["app", "features", "users", "shared"], Entry.dirE),
        (["app", "features", "users", "shared", "auth"], Entry.dirE),
        (["app", "features", "users", "shared", "auth", "__init__.py"],
          Entry.fileE "")])
      ["app"] ["users"] (by decide) (by decide) (by decide)).1
        "app.features.users.shared.auth").mpr
      ⟨1, by decide, "auth", by decide, by decide⟩,
    (collect_visible_shared_exact
      (FS.mk [(["app"], Entry.dirE), (["app", "features"], Entry.dirE),
        (["app", "shared"], Entry.dirE),
        (["app", "shared", "auth"], Entry.dirE),
        (["app", "shared", "auth", "__init__.py"], Entry.fileE ""),
        (["app", "features", "users"], Entry.dirE),
        (["app", "features", "users", "router.py"], Entry.fileE ""),
        (["app", "features", "users", "features"], Entry.dirE),
        (["app", "features", "users", "shared"], Entry.dirE),
        (["app", "features", "users", "shared", "auth"], Entry.dirE),
        (["app", "features", "users", "shared", "auth", "__init__.py"],
          Entry.fileE "")])
      ["app"] ["users"] (by decide) (by decide) (by decide)).2
      0 1 "auth" (by decide) (by decide)⟩

/-- C5 counterexample: at the `app` level, a `shared` child `util` that has
a `service.py` (and so qualifies as a shared unit under the claim's
service-entry-point rule) but no `__init__.py` is NOT recorded by the
collector, while a child `pkg` with an `__init__.py` and NO `service.py` IS
recorded — the collector's qualification test is the presence of
`__init__.py`, not of `service.py`. -/
theorem collect_shared_service_rule_false :
    (FS.mk [(["app"], Entry.dirE), (["app", "features"], Entry.dirE),
      (["app", "shared"], Entry.dirE),
      (["app", "shared", "util"], Entry.dirE),
      (["app", "shared", "util", "service.py"], Entry.fileE ""),
      (["app", "shared", "pkg"], Entry.dirE),
      (["app", "shared", "pkg", "__init__.py"],
        Entry.fileE "")]).pexists
      ["app", "shared", "util", "service.py"] = true ∧
    (FS.mk [(["app"], Entry.dirE), (["app", "features"], Entry.dirE),
      (["app", "shared"], Entry.dirE),
      (["app", "shared", "util"], Entry.dirE),
      (["app", "shared", "util", "service.py"], Entry.fileE ""),
      (["app", "shared", "pkg"], Entry.dirE),
      (["app", "shared", "pkg", "__init__.py"],
        Entry.fileE "")]).statOf ["app", "shared", "util"]
      = some Entry.dirE ∧
    (FS.mk [(["app"], Entry.dirE), (["app", "features"], Entry.dirE),
      (["app", "shared"], Entry.dirE),
      (["app", "shared", "util"], Entry.dirE),
      (["app", "shared", "util", "service.py"], Entry.fileE ""),
      (["app", "shared", "pkg"], Entry.dirE),
      (["app", "shared", "pkg", "__init__.py"],
        Entry.fileE "")]).pexists ["app", "shared", "pkg", "service.py"]
      = false ∧
    (collect_available_shared_modules
      (FS.mk [(["app"], Entry.dirE), (["app", "features"], Entry.dirE),
        (["app", "shared"], Entry.dirE),
        (["app", "shared", "util"], Entry.dirE),
        (["app", "shared", "util", "service.py"], Entry.fileE ""),
        (["app", "shared", "pkg"], Entry.dirE),
        (["app", "shared", "pkg", "__init__.py"], Entry.fileE "")])
      ["app", "features"]).map Prod.fst = ["app.shared.pkg"] := by
  refine ⟨by decide, by decide, by decide, by decide⟩

/-- C5 amended: at each visited level, `_collect_available_shared_modules`
records exactly those immediate children of the `shared` container that are
directories containing an `__init__.py` (a package marker) — not those with
a `service.py` — each keyed by the level's base import path followed by
`.shared.` and the child's name. -/
theorem collectLevel_records_init_packages (fs : FS) (level : List String)
    (a : String) :
    a ∈ (collectLevel fs [] level).map Prod.fst ↔
      ∃ name, sharedUnitVisible fs level name ∧
        a = baseImportPathOf level ++ ".shared." ++ name := by
  rw [mem_keys_collectLevel]
  simp
